import Mathlib

/-!
# Allocation registry of `memoryanalyzer.c`

A shallow embedding of the tracked-allocation registry (`tracked_malloc`,
`tracked_free`, `detect_memory_leaks`) and the properties of it that the
specification states.

Modelling conventions.

* An address (`void*`) is a natural number, `NULL` is `0`.
* The global singly linked list `memory_block_head` is the list of its records
  from the head onwards; the empty list is `memory_block_head == NULL`.
* The C library is the environment: what `malloc` answers is an argument of the
  operation, and every call into the library (`malloc`, `free`,
  `pthread_mutex_lock`, `pthread_mutex_unlock`, `fprintf`) is recorded, in
  program order, in the event trace of the operation.
* A store through a null pointer has no defined result: the operation then has
  no outcome (`none`). The same holds for a call `free(ptr)` on an address the
  allocator does not own (never allocated, or already freed): `Heap.free` gives
  the contract of `free`, and `tracked_free.outcome` runs the library calls of
  `tracked_free` against it.
-/

namespace MemoryAnalyzer

/-- An address, the value of a `void*`. -/
abbrev Addr := Nat

/-- The null pointer. -/
def NULL : Addr := 0

/-- The payload of `struct MemoryBlock`; the `next` field is the tail of the
list the record sits in. -/
structure MemoryBlock where
  /-- Pointer to the allocated memory block (`void* ptr`). -/
  ptr : Addr
  /-- Size of the memory block (`size_t size`). -/
  size : Nat
  /-- File where the allocation was made (`const char* file`). -/
  file : String
  /-- Line number where the allocation was made (`int line`). -/
  line : Int
  deriving DecidableEq, Repr

/-- The list hanging off `memory_block_head`. -/
abbrev Registry := List MemoryBlock

/-- The empty registry, `memory_block_head = NULL`. -/
def memory_block_head : Registry := []

/-- The three lines `detect_memory_leaks` writes to `stderr`. -/
inductive Message where
  /-- The line `"Memory leak detected: %zu bytes at %s:%d\n"`. -/
  | leak (size : Nat) (file : String) (line : Int)
  /-- The line `"No memory leaks detected in file: %s\n"`. -/
  | no_leaks (file_name : String)
  /-- The line `"Total %d memory leak(s) detected in file: %s\n"`. -/
  | total (leak_count : Nat) (file_name : String)
  deriving DecidableEq, Repr

/-- The calls an operation makes into the C library. -/
inductive Event where
  /-- The call `malloc(size)` of `tracked_malloc`, with the address it answered. -/
  | malloc (size : Nat) (result : Addr)
  /-- The call `malloc(sizeof(MemoryBlock))`, with the address it answered. -/
  | malloc_block (result : Addr)
  /-- The call `free(ptr)` on a caller's block. -/
  | free (ptr : Addr)
  /-- The call `free(curr)` on an unlinked list node. -/
  | free_block
  /-- The call `pthread_mutex_lock(&mutex)`. -/
  | lock
  /-- The call `pthread_mutex_unlock(&mutex)`. -/
  | unlock
  /-- The call `fprintf(stderr, ...)`. -/
  | fprintf (msg : Message)
  deriving DecidableEq, Repr

/-- What one call of `tracked_malloc` does: the library calls it made, and, when
it returned, the returned pointer with the list it left behind. -/
structure MallocRun where
  trace : List Event
  outcome : Option (Addr × Registry)
  deriving DecidableEq, Repr

/-- What one call of `tracked_free` does to the list, and the library calls it
makes; whether the call returns is settled by `tracked_free.outcome`, which
runs these calls against the allocator. -/
structure FreeRun where
  trace : List Event
  registry : Registry
  deriving DecidableEq, Repr

/-- What one call of `detect_memory_leaks` does; `leak_count` is the value of
the local counter when the summary line is chosen. -/
structure LeakRun where
  trace : List Event
  leak_count : Nat
  deriving DecidableEq, Repr

/-- The function `tracked_malloc(size, file, line)` run on the list `head`, where
`ptr` is what `malloc(size)` answers and `block` what
`malloc(sizeof(MemoryBlock))` answers. The second answer is not tested by the
source: with `block = NULL` the store `block->ptr = ptr` goes through a null
pointer, before the mutex is taken. -/
def tracked_malloc (ptr block : Addr) (size : Nat) (file : String) (line : Int)
    (head : Registry) : MallocRun :=
  if ptr ≠ NULL then
    if block = NULL then
      { trace := [Event.malloc size ptr, Event.malloc_block block],
        outcome := none }
    else
      { trace := [Event.malloc size ptr, Event.malloc_block block, Event.lock, Event.unlock],
        outcome := some (ptr, { ptr := ptr, size := size, file := file, line := line } :: head) }
  else
    { trace := [Event.malloc size ptr],
      outcome := some (ptr, head) }

/-- The search loop of `tracked_free`,
`while (curr != NULL && curr->ptr != ptr) { prev = curr; curr = curr->next; }`.
The first list holds the records up to and including `prev` (empty for
`prev == NULL`), the second is the list from `curr` on (empty for
`curr == NULL`). -/
def tracked_free.search (ptr : Addr) :
    List MemoryBlock → List MemoryBlock → List MemoryBlock × List MemoryBlock
  | prev, [] => (prev, [])
  | prev, curr :: next =>
    if curr.ptr ≠ ptr then tracked_free.search ptr (prev ++ [curr]) next
    else (prev, curr :: next)

/-- The function `tracked_free(ptr)` run on the list `head`. -/
def tracked_free (ptr : Addr) (head : Registry) : FreeRun :=
  if ptr ≠ NULL then
    match tracked_free.search ptr [] head with
    | (_, []) =>
      { trace := [Event.lock, Event.unlock, Event.free ptr],
        registry := head }
    | (prev, _ :: next) =>
      { trace := [Event.lock, Event.free_block, Event.unlock, Event.free ptr],
        registry := if prev ≠ [] then prev ++ next else next }
  else
    { trace := [], registry := head }

/-- The loop of `detect_memory_leaks` from `curr` on, entered with the counter
at `leak_count`: the lines written, and the counter at the end. The counter is a
C `int`; it is counted here in `Nat`, which it agrees with as long as fewer than
`2^31` records match. -/
def detect_memory_leaks.scan (file_name : String) :
    List MemoryBlock → Nat → List Event × Nat
  | [], leak_count => ([], leak_count)
  | curr :: next, leak_count =>
    if curr.file = file_name then
      let rest := detect_memory_leaks.scan file_name next (leak_count + 1)
      (Event.fprintf (Message.leak curr.size curr.file curr.line) :: rest.1, rest.2)
    else
      detect_memory_leaks.scan file_name next leak_count

/-- The function `detect_memory_leaks(file_name)` run on the list `head`: the
loop runs between the lock and the unlock, the summary line comes after. -/
def detect_memory_leaks (file_name : String) (head : Registry) : LeakRun :=
  let loop := detect_memory_leaks.scan file_name head 0
  { trace := Event.lock :: loop.1 ++
      [Event.unlock,
       if loop.2 = 0 then Event.fprintf (Message.no_leaks file_name)
       else Event.fprintf (Message.total loop.2 file_name)],
    leak_count := loop.2 }

/-- The leak lines of a trace, in the order written: size, file and line of each. -/
def reported : List Event → List (Nat × String × Int)
  | [] => []
  | Event.fprintf (Message.leak size file line) :: rest => (size, file, line) :: reported rest
  | _ :: rest => reported rest

/-- The blocks the allocator has handed out to callers and not got back. -/
abbrev Heap := List Addr

/-- The call `free(ptr)` of the C library on the allocator's blocks: nothing
happens for `NULL`, a block the allocator owns is given back, and for any other
address (never allocated, or freed before) the call has no defined result. -/
def Heap.free (heap : Heap) (ptr : Addr) : Option Heap :=
  if ptr = NULL then some heap
  else if ptr ∈ heap then some (heap.erase ptr)
  else none

/-- The allocator's blocks after the library calls of a trace, in order:
`malloc(size)` adds the block it answered, `free(ptr)` is `Heap.free`; the list
nodes (`malloc_block`, `free_block`) are the registry's own and are not counted
among the callers' blocks. There is no result when a `free` has none. -/
def Heap.calls : Heap → List Event → Option Heap
  | heap, [] => some heap
  | heap, Event.malloc _ result :: rest =>
    Heap.calls (if result = NULL then heap else result :: heap) rest
  | heap, Event.free ptr :: rest => (heap.free ptr).bind fun heap' => Heap.calls heap' rest
  | heap, _ :: rest => Heap.calls heap rest

/-- The function `tracked_free(ptr)` run on the list `head` with the allocator
owning the blocks `heap`: the list and the blocks it leaves when it returns, and
`none` when its `free(ptr)`, which the source calls for every non-null `ptr`
whether or not a record was found, is given an address the allocator does not
own. -/
def tracked_free.outcome (heap : Heap) (ptr : Addr) (head : Registry) :
    Option (Registry × Heap) :=
  (heap.calls (tracked_free ptr head).trace).map fun heap' =>
    ((tracked_free ptr head).registry, heap')

/-- One call on the registry: a `tracked_malloc` with the two answers of the
allocator, or a `tracked_free`. -/
inductive Op where
  | malloc (ptr block : Addr) (size : Nat) (file : String) (line : Int)
  | free (ptr : Addr)
  deriving DecidableEq, Repr

/-- The list after one call, when the call returns. -/
def step (head : Registry) : Op → Option Registry
  | Op.malloc ptr block size file line =>
    (tracked_malloc ptr block size file line head).outcome.map Prod.snd
  | Op.free ptr => some (tracked_free ptr head).registry

/-- The list after a sequence of calls, when all of them return. -/
def run : Registry → List Op → Option Registry
  | head, [] => some head
  | head, op :: ops => (step head op).bind fun head' => run head' ops

/-- Every allocation of the sequence that succeeds answers an address no record
of the list at that moment holds. -/
def noAlias : Registry → List Op → Bool
  | _, [] => true
  | head, op :: ops =>
    (match op with
      | Op.malloc ptr _ _ _ _ => ptr = NULL || head.all fun b => b.ptr != ptr
      | Op.free _ => true) &&
    (match step head op with
      | some head' => noAlias head' ops
      | none => true)

/-- The call is a `tracked_malloc` that the allocator satisfies: it returns a
non-null address. -/
def Op.isSuccessfulMalloc : Op → Bool
  | Op.malloc ptr block _ _ _ => ptr != NULL && block != NULL
  | Op.free _ => false

/-- The address a call is about: the one `tracked_malloc` returns, the one
`tracked_free` is given. -/
def Op.addr : Op → Addr
  | Op.malloc ptr _ _ _ _ => ptr
  | Op.free ptr => ptr

/-- The events of a trace take and give back the mutex in turn, and the trace
ends with the mutex free; `held` says whether it is held at the start. -/
def lockPaired : Bool → List Event → Bool
  | held, [] => !held
  | held, Event.lock :: rest => !held && lockPaired true rest
  | held, Event.unlock :: rest => held && lockPaired false rest
  | held, _ :: rest => lockPaired held rest

/-- No `fprintf` of the trace happens while the mutex is held. -/
def noOutputWhileLocked : Bool → List Event → Bool
  | _, [] => true
  | _, Event.lock :: rest => noOutputWhileLocked true rest
  | _, Event.unlock :: rest => noOutputWhileLocked false rest
  | held, Event.fprintf _ :: rest => !held && noOutputWhileLocked held rest
  | held, _ :: rest => noOutputWhileLocked held rest

/-! ## The leak report -/

theorem scan_spec (F : String) (l : List MemoryBlock) (n : Nat) :
    detect_memory_leaks.scan F l n =
      ((l.filter fun b => b.file = F).map
          (fun b => Event.fprintf (Message.leak b.size b.file b.line)),
        n + (l.filter fun b => b.file = F).length) := by
  induction l generalizing n with
  | nil => simp [detect_memory_leaks.scan]
  | cons b l ih =>
    by_cases h : b.file = F
    · simp [detect_memory_leaks.scan, h, ih]; omega
    · simp [detect_memory_leaks.scan, h, ih]

theorem reported_leak_lines (l : List MemoryBlock) (tail : List Event) :
    reported (l.map (fun b => Event.fprintf (Message.leak b.size b.file b.line)) ++ tail) =
      l.map (fun b => (b.size, b.file, b.line)) ++ reported tail := by
  induction l with
  | nil => simp
  | cons b l ih => simp [reported, ih]

theorem detect_memory_leaks_trace (F : String) (head : Registry) :
    (detect_memory_leaks F head).trace =
        Event.lock ::
          ((head.filter fun b => b.file = F).map
            fun b => Event.fprintf (Message.leak b.size b.file b.line)) ++
          [Event.unlock,
           if (head.filter fun b => b.file = F) = []
           then Event.fprintf (Message.no_leaks F)
           else Event.fprintf (Message.total (head.filter fun b => b.file = F).length F)] := by
  simp only [detect_memory_leaks, scan_spec, Nat.zero_add, List.length_eq_zero]

theorem detect_memory_leaks_reported (F : String) (head : Registry) :
    reported (detect_memory_leaks F head).trace =
      (head.filter fun b => b.file = F).map (fun b => (b.size, b.file, b.line)) := by
  rw [detect_memory_leaks_trace, List.cons_append]
  simp only [reported]
  rw [reported_leak_lines]
  split <;> simp [reported]

theorem detect_memory_leaks_count (F : String) (head : Registry) :
    (detect_memory_leaks F head).leak_count = (head.filter fun b => b.file = F).length := by
  simp [detect_memory_leaks, scan_spec]

theorem search_unlink (ptr : Addr) (l prev : List MemoryBlock) :
    (match tracked_free.search ptr prev l with
      | (_, []) => prev ++ l
      | (before, _ :: next) => before ++ next) =
      prev ++ l.eraseP (fun b => b.ptr == ptr) := by
  induction l generalizing prev with
  | nil => simp [tracked_free.search]
  | cons curr next ih =>
    by_cases h : curr.ptr = ptr
    · simp [tracked_free.search, h]
    · have hne : (curr.ptr == ptr) = false := by simpa using h
      have := ih (prev ++ [curr])
      simp only [tracked_free.search, ne_eq, h, not_false_eq_true, if_true]
      rw [List.eraseP_cons_of_neg (by simp [hne])]
      simpa using this

theorem tracked_free_registry (ptr : Addr) (head : Registry) :
    (tracked_free ptr head).registry =
      if ptr = NULL then head else head.eraseP (fun b => b.ptr == ptr) := by
  by_cases hp : ptr = NULL
  · simp [tracked_free, hp]
  · have key := search_unlink ptr head []
    simp only [tracked_free, ne_eq, hp, not_false_eq_true, if_true, if_false]
    split
    · next before heq =>
      rw [heq] at key
      simpa using key
    · next before curr next heq =>
      rw [heq] at key
      simp only [List.nil_append] at key
      rw [← key]
      by_cases hb : before = []
      · simp [hb]
      · simp [hb]

theorem tracked_free_absent (ptr : Addr) (head : Registry)
    (h : ptr = NULL ∨ ∀ b ∈ head, b.ptr ≠ ptr) :
    (tracked_free ptr head).registry = head := by
  rw [tracked_free_registry]
  split
  · rfl
  · next hp =>
    rcases h with h | h
    · exact absurd h hp
    · exact List.eraseP_of_forall_not (by simpa using h)

theorem map_ptr_eraseP (ptr : Addr) (l : List MemoryBlock) :
    (l.eraseP (fun b => b.ptr == ptr)).map MemoryBlock.ptr = (l.map MemoryBlock.ptr).erase ptr := by
  induction l with
  | nil => simp
  | cons b l ih =>
    by_cases h : b.ptr = ptr
    · simp [h]
    · have hne : (b.ptr == ptr) = false := by simpa using h
      rw [List.eraseP_cons_of_neg (by simp [hne])]
      simp [List.erase_cons_tail, hne, ih]


/-- C2. For every list and every non-null address `p` that some record holds,
`tracked_free(p)` leaves the list with the first record whose `ptr` is `p`
taken out: the list splits as `before ++ b :: after` with `b.ptr = p` and no
record of `before` holding `p`, the new list is `before ++ after`, and it is one
record shorter. -/
theorem tracked_free_removes_first (p : Addr) (head : Registry)
    (hp : p ≠ NULL) (hmem : ∃ b ∈ head, b.ptr = p) :
    ∃ before b after,
      head = before ++ b :: after ∧ b.ptr = p ∧ (∀ x ∈ before, x.ptr ≠ p) ∧
      (tracked_free p head).registry = before ++ after ∧
      (tracked_free p head).registry.length + 1 = head.length := by
  obtain ⟨b0, hb0, hb0p⟩ := hmem
  obtain ⟨b, before, after, hbefore, hb, hsplit, herase⟩ :=
    List.exists_of_eraseP (p := fun b => b.ptr == p) hb0 (by simpa using hb0p)
  refine ⟨before, b, after, hsplit, by simpa using hb, ?_, ?_, ?_⟩
  · intro x hx
    simpa using hbefore x hx
  · rw [tracked_free_registry, if_neg hp, herase]
  · rw [tracked_free_registry, if_neg hp, herase, hsplit]
    simp
    omega

/-- The instance of C2 on a list of three records, two of them holding address 2. -/
theorem tracked_free_removes_first_witness :
    (tracked_free 2 [⟨1, 4, "a.c", 3⟩, ⟨2, 8, "b.c", 5⟩, ⟨2, 9, "a.c", 7⟩]).registry =
      [⟨1, 4, "a.c", 3⟩, ⟨2, 9, "a.c", 7⟩] ∧
    ∃ before b after,
      ([⟨1, 4, "a.c", 3⟩, ⟨2, 8, "b.c", 5⟩, ⟨2, 9, "a.c", 7⟩] : Registry) =
        before ++ b :: after ∧ b.ptr = 2 ∧ (∀ x ∈ before, x.ptr ≠ 2) ∧
      (tracked_free 2 [⟨1, 4, "a.c", 3⟩, ⟨2, 8, "b.c", 5⟩, ⟨2, 9, "a.c", 7⟩]).registry =
        before ++ after ∧
      (tracked_free 2 [⟨1, 4, "a.c", 3⟩, ⟨2, 8, "b.c", 5⟩, ⟨2, 9, "a.c", 7⟩]).registry.length + 1 =
        ([⟨1, 4, "a.c", 3⟩, ⟨2, 8, "b.c", 5⟩, ⟨2, 9, "a.c", 7⟩] : Registry).length :=
  ⟨by decide, tracked_free_removes_first 2 [⟨1, 4, "a.c", 3⟩, ⟨2, 8, "b.c", 5⟩, ⟨2, 9, "a.c", 7⟩]
    (by decide) ⟨⟨2, 8, "b.c", 5⟩, by decide, rfl⟩⟩

theorem tracked_free_trace (ptr : Addr) (head : Registry) :
    (tracked_free ptr head).trace =
      if ptr = NULL then []
      else if ∀ b ∈ head, b.ptr ≠ ptr then [Event.lock, Event.unlock, Event.free ptr]
      else [Event.lock, Event.free_block, Event.unlock, Event.free ptr] := by
  have key : ∀ (l prev : List MemoryBlock),
      ((tracked_free.search ptr prev l).2 = [] ↔ ∀ b ∈ l, b.ptr ≠ ptr) := by
    intro l
    induction l with
    | nil => intro prev; simp [tracked_free.search]
    | cons curr next ih =>
      intro prev
      by_cases h : curr.ptr = ptr
      · simp [tracked_free.search, h]
      · simp [tracked_free.search, h, ih]
  by_cases hp : ptr = NULL
  · simp [tracked_free, hp]
  · have k := key head []
    simp only [tracked_free, ne_eq, hp, not_false_eq_true, if_true, if_false]
    split
    · next before heq =>
      rw [heq] at k
      rw [if_pos (k.mp rfl)]
    · next before curr next heq =>
      rw [heq] at k
      have hn : ¬ ∀ b ∈ head, b.ptr ≠ ptr := fun hall => by simpa using k.mpr hall
      simp only [ne_eq] at hn
      simp only [ne_eq, hn, if_false]

theorem not_mem_after_free (p : Addr) (head : Registry) (hp : p ≠ NULL)
    (huniq : (head.map MemoryBlock.ptr).Nodup) :
    ∀ b ∈ (tracked_free p head).registry, b.ptr ≠ p := by
  intro b hb hbp
  have hmem : b.ptr ∈ ((tracked_free p head).registry).map MemoryBlock.ptr :=
    List.mem_map_of_mem _ hb
  rw [tracked_free_registry, if_neg hp, map_ptr_eraseP, hbp] at hmem
  exact (List.Nodup.mem_erase_iff huniq).mp hmem |>.1 rfl

theorem calls_tracked_free (heap : Heap) (p : Addr) (head : Registry) :
    heap.calls (tracked_free p head).trace = heap.free p := by
  rw [tracked_free_trace]
  by_cases hp : p = NULL
  · simp [hp, Heap.calls, Heap.free]
  · rw [if_neg hp]
    split <;> cases h : heap.free p <;> simp [Heap.calls, h]

theorem tracked_free_outcome_eq (heap : Heap) (p : Addr) (head : Registry) :
    tracked_free.outcome heap p head =
      if p = NULL then some (head, heap)
      else if p ∈ heap then some ((tracked_free p head).registry, heap.erase p)
      else none := by
  unfold tracked_free.outcome
  rw [calls_tracked_free]
  by_cases hp : p = NULL
  · subst hp
    simp [Heap.free, tracked_free_absent NULL head (Or.inl rfl)]
  · by_cases hm : p ∈ heap
    · simp [Heap.free, hp, hm]
    · simp [Heap.free, hp, hm]

/-- C3 as stated fails. The list holds the one record `(4096, 40, "leak_test.c", 42)`
and the allocator owns the block 4096. The first `tracked_free(4096)` returns
with the list empty and the block given back. No record holds 4096 now, and the
second `tracked_free(4096)` finds none, yet passes 4096 to `free` again: the
call has no outcome. The same happens for the address 7, which was never
tracked nor allocated. -/
theorem tracked_free_twice_double_free :
    tracked_free.outcome [4096] 4096 [⟨4096, 40, "leak_test.c", 42⟩] = some ([], []) ∧
    (∀ b ∈ ([] : Registry), b.ptr ≠ 4096) ∧
    (tracked_free 4096 []).trace = [Event.lock, Event.unlock, Event.free 4096] ∧
    tracked_free.outcome [] 4096 [] = none ∧
    (∀ b ∈ ([⟨4096, 40, "leak_test.c", 42⟩] : Registry), b.ptr ≠ 7) ∧
    tracked_free.outcome [4096] 7 [⟨4096, 40, "leak_test.c", 42⟩] = none := by
  decide

/-- C3, amended. For every list and every address `p` that no record holds, the
null address included, `tracked_free(p)` leaves the list exactly as it was; for
`NULL` it does nothing, and for a non-null `p` it takes and gives back the mutex
and passes `p` on to `free`, so it returns when `p` is a block the allocator
owns and has no outcome otherwise. In general `tracked_free(p)` fails to return
exactly when `p` is non-null and not a block of the allocator. When the
addresses of the list are pairwise different, a non-null address that was just
released is held by no record and a second `tracked_free(p)` would leave the
list the first one left; when the blocks of the allocator are pairwise different
too, that second call is a second `free` of the block and has no outcome. -/
theorem tracked_free_untracked_registry (heap : Heap) (p : Addr) (head : Registry) :
    ((p = NULL ∨ ∀ b ∈ head, b.ptr ≠ p) →
      (tracked_free p head).registry = head ∧
      (tracked_free p head).trace =
        (if p = NULL then [] else [Event.lock, Event.unlock, Event.free p]) ∧
      tracked_free.outcome heap p head =
        if p = NULL then some (head, heap)
        else if p ∈ heap then some (head, heap.erase p)
        else none) ∧
    (tracked_free.outcome heap p head = none ↔ p ≠ NULL ∧ p ∉ heap) ∧
    ((head.map MemoryBlock.ptr).Nodup →
      (p ≠ NULL → ∀ b ∈ (tracked_free p head).registry, b.ptr ≠ p) ∧
      (tracked_free p (tracked_free p head).registry).registry =
        (tracked_free p head).registry) ∧
    (heap.Nodup → p ≠ NULL → ∀ head' heap',
      tracked_free.outcome heap p head = some (head', heap') →
        tracked_free.outcome heap' p head' = none) := by
  refine ⟨fun h => ⟨tracked_free_absent p head h, ?_, ?_⟩, ?_, fun huniq => ⟨?_, ?_⟩, ?_⟩
  · rw [tracked_free_trace]
    by_cases hp : p = NULL
    · simp [hp]
    · rcases h with h | h
      · exact absurd h hp
      · simp [hp, if_pos h]
  · rw [tracked_free_outcome_eq, tracked_free_absent p head h]
  · rw [tracked_free_outcome_eq]
    by_cases hp : p = NULL
    · simp [hp]
    · by_cases hm : p ∈ heap
      · simp [hp, hm]
      · simp [hp, hm]
  · exact fun hp => not_mem_after_free p head hp huniq
  · by_cases hp : p = NULL
    · exact tracked_free_absent p _ (Or.inl hp)
    · exact tracked_free_absent p _ (Or.inr (not_mem_after_free p head hp huniq))
  · intro hnd hp head' heap' hout
    rw [tracked_free_outcome_eq, if_neg hp] at hout
    by_cases hm : p ∈ heap
    · rw [if_pos hm] at hout
      simp only [Option.some.injEq, Prod.mk.injEq] at hout
      obtain ⟨-, rfl⟩ := hout
      rw [tracked_free_outcome_eq, if_neg hp, if_neg]
      exact fun hmem => ((List.Nodup.mem_erase_iff hnd).mp hmem).1 rfl
    · rw [if_neg hm] at hout
      cases hout

/-- The instances of C3, amended: an address no record holds that is a block of
the allocator, the null address, an address the allocator does not own, and a
release repeated. -/
theorem tracked_free_untracked_registry_witness :
    tracked_free.outcome [4096, 7] 7 [⟨4096, 40, "leak_test.c", 42⟩] =
      some ([⟨4096, 40, "leak_test.c", 42⟩], [4096]) ∧
    tracked_free.outcome [4096] NULL [⟨4096, 40, "leak_test.c", 42⟩] =
      some ([⟨4096, 40, "leak_test.c", 42⟩], [4096]) ∧
    tracked_free.outcome [4096] 7 [⟨4096, 40, "leak_test.c", 42⟩] = none ∧
    (tracked_free 4096 (tracked_free 4096 [⟨4096, 40, "leak_test.c", 42⟩]).registry).registry =
      (tracked_free 4096 [⟨4096, 40, "leak_test.c", 42⟩]).registry ∧
    tracked_free.outcome [] 4096 [] = none :=
  ⟨((tracked_free_untracked_registry [4096, 7] 7 [⟨4096, 40, "leak_test.c", 42⟩]).1
      (Or.inr (by decide))).2.2,
   ((tracked_free_untracked_registry [4096] NULL [⟨4096, 40, "leak_test.c", 42⟩]).1
      (Or.inl rfl)).2.2,
   ((tracked_free_untracked_registry [4096] 7 [⟨4096, 40, "leak_test.c", 42⟩]).2.1).mpr
      (by decide),
   ((tracked_free_untracked_registry [4096] 4096 [⟨4096, 40, "leak_test.c", 42⟩]).2.2.1
      (by decide)).2,
   (tracked_free_untracked_registry [4096] 4096 [⟨4096, 40, "leak_test.c", 42⟩]).2.2.2
      (by decide) (by decide) [] [] (by decide)⟩

/-! ## Allocation -/

theorem tracked_malloc_outcome (ptr block : Addr) (size : Nat) (file : String) (line : Int)
    (head : Registry) (hp : ptr ≠ NULL) (hb : block ≠ NULL) :
    (tracked_malloc ptr block size file line head).outcome =
      some (ptr, { ptr := ptr, size := size, file := file, line := line } :: head) := by
  simp [tracked_malloc, hp, hb]

theorem tracked_malloc_null (block : Addr) (size : Nat) (file : String) (line : Int)
    (head : Registry) :
    tracked_malloc NULL block size file line head =
      { trace := [Event.malloc size NULL], outcome := some (NULL, head) } := by
  simp [tracked_malloc]

/-- C4, at the input where the code departs from it. `malloc(40)` succeeds with
the address 4096 and `malloc(sizeof(MemoryBlock))`, whose answer the source does
not test, answers `NULL`: `tracked_malloc(40, "leak_test.c", 42)` stores through
the null `block` right after the two `malloc` calls, so it neither returns 4096
nor puts the record on the list. With a node (at 8192) it does both. -/
theorem tracked_malloc_null_block :
    tracked_malloc 4096 NULL 40 "leak_test.c" 42 memory_block_head =
      { trace := [Event.malloc 40 4096, Event.malloc_block NULL], outcome := none } ∧
    (tracked_malloc 4096 NULL 40 "leak_test.c" 42 memory_block_head).outcome ≠
      some (4096, [{ ptr := 4096, size := 40, file := "leak_test.c", line := 42 }]) ∧
    (tracked_malloc 4096 8192 40 "leak_test.c" 42 memory_block_head).outcome =
      some (4096, [{ ptr := 4096, size := 40, file := "leak_test.c", line := 42 }]) := by
  decide

/-- C5, at the input where the code departs from it. `malloc(40)` answers the
address 4096 and the allocator has no memory for the list node,
`malloc(sizeof(MemoryBlock))` answers `NULL`: `tracked_malloc(40, "leak_test.c", 42)`
stores through the null `block` and has no outcome. This allocation failure is
not returned to the caller as `NULL` with the list as it was, and the call fails
although `malloc(40)` did not. When it is `malloc(size)` that answers `NULL`,
the call does return `NULL`, after that one library call, with the list as it
was. -/
theorem tracked_malloc_block_unchecked :
    (tracked_malloc 4096 NULL 40 "leak_test.c" 42 memory_block_head).outcome = none ∧
    (tracked_malloc 4096 NULL 40 "leak_test.c" 42 memory_block_head).outcome ≠
      some (NULL, memory_block_head) ∧
    (tracked_malloc 4096 NULL 40 "leak_test.c" 42 memory_block_head).trace =
      [Event.malloc 40 4096, Event.malloc_block NULL] ∧
    tracked_malloc NULL 8192 40 "leak_test.c" 42 memory_block_head =
      { trace := [Event.malloc 40 NULL], outcome := some (NULL, memory_block_head) } := by
  decide

/-! ## Sequences of calls -/

theorem step_malloc_null (head : Registry) (block : Addr) (size : Nat) (file : String)
    (line : Int) : step head (Op.malloc NULL block size file line) = some head := by
  simp [step, tracked_malloc_null]

theorem step_malloc_ok (head : Registry) (ptr block : Addr) (size : Nat) (file : String)
    (line : Int) (hp : ptr ≠ NULL) (hb : block ≠ NULL) :
    step head (Op.malloc ptr block size file line) =
      some ({ ptr := ptr, size := size, file := file, line := line } :: head) := by
  simp [step, tracked_malloc_outcome _ _ _ _ _ _ hp hb]

theorem step_malloc_crash (head : Registry) (ptr : Addr) (size : Nat) (file : String)
    (line : Int) (hp : ptr ≠ NULL) :
    step head (Op.malloc ptr NULL size file line) = none := by
  simp [step, tracked_malloc, hp]

theorem step_free (head : Registry) (ptr : Addr) :
    step head (Op.free ptr) =
      some (if ptr = NULL then head else head.eraseP (fun b => b.ptr == ptr)) := by
  simp [step, tracked_free_registry]

theorem run_append (head : Registry) (ops₁ ops₂ : List Op) :
    run head (ops₁ ++ ops₂) = (run head ops₁).bind fun head' => run head' ops₂ := by
  induction ops₁ generalizing head with
  | nil => simp [run]
  | cons op ops ih =>
    simp only [List.cons_append, run]
    cases step head op with
    | none => simp
    | some head' => simp [ih]

theorem nodup_step (head head' : Registry) (op : Op)
    (huniq : (head.map MemoryBlock.ptr).Nodup)
    (hfresh : ∀ ptr block size file line, op = Op.malloc ptr block size file line →
      ptr ≠ NULL → ∀ b ∈ head, b.ptr ≠ ptr)
    (hstep : step head op = some head') :
    (head'.map MemoryBlock.ptr).Nodup := by
  cases op with
  | malloc ptr block size file line =>
    by_cases hp : ptr = NULL
    · subst hp
      rw [step_malloc_null] at hstep
      cases hstep
      exact huniq
    · by_cases hb : block = NULL
      · subst hb
        rw [step_malloc_crash _ _ _ _ _ hp] at hstep
        cases hstep
      · rw [step_malloc_ok _ _ _ _ _ _ hp hb] at hstep
        cases hstep
        have hnew := hfresh ptr block size file line rfl hp
        simp only [List.map_cons, List.nodup_cons, List.mem_map, not_exists, not_and]
        exact ⟨fun b hb' => hnew b hb', huniq⟩
  | free ptr =>
    rw [step_free] at hstep
    cases hstep
    split
    · exact huniq
    · exact List.Nodup.sublist ((List.eraseP_sublist head).map _) huniq

theorem nodup_run (ops : List Op) (head head' : Registry)
    (huniq : (head.map MemoryBlock.ptr).Nodup)
    (hfresh : noAlias head ops = true) (hrun : run head ops = some head') :
    (head'.map MemoryBlock.ptr).Nodup := by
  induction ops generalizing head with
  | nil =>
    simp only [run, Option.some.injEq] at hrun
    exact hrun ▸ huniq
  | cons op ops ih =>
    simp only [run] at hrun
    cases hstep : step head op with
    | none => simp [hstep] at hrun
    | some mid =>
      simp only [hstep, Option.some_bind] at hrun
      simp only [noAlias, hstep, Bool.and_eq_true] at hfresh
      refine ih mid (nodup_step head mid op huniq ?_ hstep) hfresh.2 hrun
      intro ptr block size file line hop hp b hb
      subst hop
      have h1 := hfresh.1
      simp only [Bool.or_eq_true, decide_eq_true_eq, List.all_eq_true, bne_iff_ne, ne_eq] at h1
      rcases h1 with h1 | h1
      · exact absurd h1 hp
      · exact h1 b hb


/-- C6. Address uniqueness is an invariant: from the empty list, after every
sequence of `tracked_malloc` and `tracked_free` calls in which each allocation
that succeeds answers an address that no record held at that moment, no two
records of the list have the same `ptr`. -/
theorem registry_addresses_unique (ops : List Op) (head : Registry)
    (hfresh : noAlias memory_block_head ops = true)
    (hrun : run memory_block_head ops = some head) :
    (head.map MemoryBlock.ptr).Nodup :=
  nodup_run ops memory_block_head head (by simp [memory_block_head]) hfresh hrun

/-- The instance of C6 on a sequence that allocates twice, releases the first
block, and gets its address again from the allocator. -/
theorem registry_addresses_unique_witness :
    run memory_block_head
        [Op.malloc 16 32 8 "a.c" 1, Op.malloc 48 64 8 "b.c" 2, Op.free 16,
         Op.malloc 16 80 4 "c.c" 3] =
      some [⟨16, 4, "c.c", 3⟩, ⟨48, 8, "b.c", 2⟩] ∧
    (List.map MemoryBlock.ptr [⟨16, 4, "c.c", 3⟩, ⟨48, 8, "b.c", 2⟩]).Nodup :=
  ⟨by decide,
   registry_addresses_unique
     [Op.malloc 16 32 8 "a.c" 1, Op.malloc 48 64 8 "b.c" 2, Op.free 16,
      Op.malloc 16 80 4 "c.c" 3]
     [⟨16, 4, "c.c", 3⟩, ⟨48, 8, "b.c", 2⟩] (by decide) (by decide)⟩

theorem run_mallocs (mallocs : List Op) (head : Registry)
    (hsucc : ∀ op ∈ mallocs, op.isSuccessfulMalloc = true) :
    ∃ head', run head mallocs = some head' ∧
      (head'.map MemoryBlock.ptr).Perm (mallocs.map Op.addr ++ head.map MemoryBlock.ptr) := by
  induction mallocs generalizing head with
  | nil => exact ⟨head, rfl, by simp⟩
  | cons op ops ih =>
    have hop := hsucc op (List.mem_cons_self _ _)
    cases op with
    | free ptr => simp [Op.isSuccessfulMalloc] at hop
    | malloc ptr block size file line =>
      simp only [Op.isSuccessfulMalloc, Bool.and_eq_true, bne_iff_ne, ne_eq] at hop
      obtain ⟨head', hrun, hperm⟩ :=
        ih ({ ptr := ptr, size := size, file := file, line := line } :: head)
          (fun o ho => hsucc o (List.mem_cons_of_mem _ ho))
      refine ⟨head', ?_, ?_⟩
      · simp only [run, step_malloc_ok _ _ _ _ _ _ hop.1 hop.2, Option.some_bind]
        exact hrun
      · refine hperm.trans ?_
        simp only [List.map_cons, Op.addr, List.cons_append]
        exact List.perm_middle

theorem run_frees (frees : List Addr) (head : Registry)
    (hnonnull : ∀ p ∈ frees, p ≠ NULL)
    (hpair : frees.Perm (head.map MemoryBlock.ptr)) :
    run head (frees.map Op.free) = some [] := by
  induction frees generalizing head with
  | nil =>
    have : head = [] := by simpa using hpair.symm.eq_nil
    simp [run, this]
  | cons p rest ih =>
    have hp : p ≠ NULL := hnonnull p (List.mem_cons_self _ _)
    simp only [List.map_cons, run, step_free, if_neg hp, Option.some_bind]
    apply ih _ (fun q hq => hnonnull q (List.mem_cons_of_mem _ hq))
    rw [map_ptr_eraseP]
    exact (List.cons_perm_iff_perm_erase.mp hpair).2

/-- C7. From the empty list, after any sequence of `tracked_malloc` calls that
succeed followed by `tracked_free` calls paired one to one with them (the
released addresses are the returned addresses, each as often as it was
returned, in any order), every call returns and the list is empty. -/
theorem paired_release_empties (mallocs : List Op) (frees : List Addr)
    (hsucc : ∀ op ∈ mallocs, op.isSuccessfulMalloc = true)
    (hpair : frees.Perm (mallocs.map Op.addr)) :
    run memory_block_head (mallocs ++ frees.map Op.free) = some [] := by
  obtain ⟨head', hrun, hperm⟩ := run_mallocs mallocs memory_block_head hsucc
  rw [run_append, hrun, Option.some_bind]
  apply run_frees
  · intro p hp
    have hmem : p ∈ mallocs.map Op.addr := hpair.subset hp
    obtain ⟨op, hop, rfl⟩ := List.mem_map.mp hmem
    have := hsucc op hop
    cases op with
    | free ptr => simp [Op.isSuccessfulMalloc] at this
    | malloc ptr block size file line =>
      simp only [Op.isSuccessfulMalloc, Bool.and_eq_true, bne_iff_ne, ne_eq] at this
      exact this.1
  · refine hpair.trans (List.Perm.symm ?_)
    simpa [memory_block_head] using hperm

/-- The instance of C7 with three allocations released in another order. -/
theorem paired_release_empties_witness :
    run memory_block_head
      ([Op.malloc 16 32 8 "a.c" 1, Op.malloc 48 64 8 "b.c" 2, Op.malloc 80 96 4 "a.c" 9] ++
        [48, 80, 16].map Op.free) = some [] :=
  paired_release_empties
    [Op.malloc 16 32 8 "a.c" 1, Op.malloc 48 64 8 "b.c" 2, Op.malloc 80 96 4 "a.c" 9]
    [48, 80, 16] (by decide) (by decide)

theorem mem_step (head head' : Registry) (op : Op) (b : MemoryBlock)
    (hb : b ∈ head) (hop : op ≠ Op.free b.ptr) (hstep : step head op = some head') :
    b ∈ head' := by
  cases op with
  | malloc ptr block size file line =>
    by_cases hp : ptr = NULL
    · subst hp
      rw [step_malloc_null] at hstep
      cases hstep
      exact hb
    · by_cases hbl : block = NULL
      · subst hbl
        rw [step_malloc_crash _ _ _ _ _ hp] at hstep
        cases hstep
      · rw [step_malloc_ok _ _ _ _ _ _ hp hbl] at hstep
        cases hstep
        exact List.mem_cons_of_mem _ hb
  | free ptr =>
    rw [step_free] at hstep
    cases hstep
    split
    · exact hb
    · have hne : ¬ ((fun x : MemoryBlock => x.ptr == ptr) b = true) := by
        intro h
        apply hop
        simp only [beq_iff_eq] at h
        rw [h]
      exact (List.mem_eraseP_of_neg (p := fun x : MemoryBlock => x.ptr == ptr) (a := b)
        (l := head) hne).mpr hb

theorem mem_run (ops : List Op) (head head' : Registry) (b : MemoryBlock)
    (hb : b ∈ head) (hops : Op.free b.ptr ∉ ops) (hrun : run head ops = some head') :
    b ∈ head' := by
  induction ops generalizing head with
  | nil =>
    simp only [run, Option.some.injEq] at hrun
    exact hrun ▸ hb
  | cons op ops ih =>
    simp only [run] at hrun
    cases hstep : step head op with
    | none => simp [hstep] at hrun
    | some mid =>
      simp only [hstep, Option.some_bind] at hrun
      simp only [List.mem_cons, not_or] at hops
      exact ih mid (mem_step head mid op b hb (fun h => hops.1 h.symm) hstep) hops.2 hrun

theorem reported_of_mem (F : String) (head : Registry) (b : MemoryBlock)
    (hb : b ∈ head) (hF : b.file = F) :
    (b.size, b.file, b.line) ∈ reported (detect_memory_leaks F head).trace ∧
      1 ≤ (detect_memory_leaks F head).leak_count := by
  have hfilter : b ∈ head.filter fun x => x.file = F := by
    simp [List.mem_filter, hb, hF]
  constructor
  · rw [detect_memory_leaks_reported]
    exact List.mem_map_of_mem (fun b : MemoryBlock => (b.size, b.file, b.line)) hfilter
  · rw [detect_memory_leaks_count]
    exact List.length_pos_of_mem hfilter

/-- C8. A record that `tracked_malloc(size, F, line)` put on the list with the
address `p` stays on it, and `detect_memory_leaks(F)` keeps writing a leak line
with that size, file and line and keeps a count of at least one, after every
later sequence of `tracked_malloc` calls and of `tracked_free` calls on
addresses other than `p`. -/
theorem leak_persists (head head' : Registry) (p block : Addr) (size : Nat) (F : String)
    (line : Int) (ops : List Op)
    (hp : p ≠ NULL) (hb : block ≠ NULL) (hfrees : Op.free p ∉ ops)
    (hrun : run head (Op.malloc p block size F line :: ops) = some head') :
    { ptr := p, size := size, file := F, line := line } ∈ head' ∧
    (size, F, line) ∈ reported (detect_memory_leaks F head').trace ∧
    1 ≤ (detect_memory_leaks F head').leak_count := by
  simp only [run, step_malloc_ok _ _ _ _ _ _ hp hb, Option.some_bind] at hrun
  have hmem : ({ ptr := p, size := size, file := F, line := line } : MemoryBlock) ∈ head' :=
    mem_run ops _ head' _ (List.mem_cons_self _ _) hfrees hrun
  exact ⟨hmem, reported_of_mem F head' _ hmem rfl⟩

/-- The scenario of C8. From the empty list, 40 bytes tagged `("leak_test.c", 42)`
are allocated and not released: the report for `"leak_test.c"` counts 1, with
that size and origin. After a block tagged `("other.c", 7)` is allocated and
released, the report for `"other.c"` counts 0 and the one for `"leak_test.c"`
still counts 1. -/
theorem leak_persists_witness :
    run memory_block_head [Op.malloc 4096 8192 40 "leak_test.c" 42] =
      some [⟨4096, 40, "leak_test.c", 42⟩] ∧
    detect_memory_leaks "leak_test.c" [⟨4096, 40, "leak_test.c", 42⟩] =
      { trace := [Event.lock, Event.fprintf (Message.leak 40 "leak_test.c" 42), Event.unlock,
                  Event.fprintf (Message.total 1 "leak_test.c")],
        leak_count := 1 } ∧
    run memory_block_head
        [Op.malloc 4096 8192 40 "leak_test.c" 42, Op.malloc 12288 16384 16 "other.c" 7,
         Op.free 12288] =
      some [⟨4096, 40, "leak_test.c", 42⟩] ∧
    (detect_memory_leaks "other.c" [⟨4096, 40, "leak_test.c", 42⟩]).leak_count = 0 ∧
    reported (detect_memory_leaks "other.c" [⟨4096, 40, "leak_test.c", 42⟩]).trace = [] ∧
    (detect_memory_leaks "leak_test.c" [⟨4096, 40, "leak_test.c", 42⟩]).leak_count = 1 ∧
    ({ ptr := 4096, size := 40, file := "leak_test.c", line := 42 } ∈
        ([⟨4096, 40, "leak_test.c", 42⟩] : Registry) ∧
      ((40 : Nat), "leak_test.c", (42 : Int)) ∈
        reported (detect_memory_leaks "leak_test.c" [⟨4096, 40, "leak_test.c", 42⟩]).trace ∧
      1 ≤ (detect_memory_leaks "leak_test.c" [⟨4096, 40, "leak_test.c", 42⟩]).leak_count) :=
  ⟨by decide, by decide, by decide, by decide, by decide, by decide,
   leak_persists memory_block_head [⟨4096, 40, "leak_test.c", 42⟩] 4096 8192 40
     "leak_test.c" 42 [Op.malloc 12288 16384 16 "other.c" 7, Op.free 12288]
     (by decide) (by decide) (by decide) (by decide)⟩

/-! ## The mutex and the output -/

theorem lockPaired_leak_lines (l : List MemoryBlock) (tail : List Event) (held : Bool) :
    lockPaired held
        (l.map (fun b => Event.fprintf (Message.leak b.size b.file b.line)) ++ tail) =
      lockPaired held tail := by
  induction l with
  | nil => simp
  | cons b l ih => simp [lockPaired, ih]

theorem noOutputWhileLocked_leak_lines (l : List MemoryBlock) (tail : List Event) :
    noOutputWhileLocked true
        (l.map (fun b => Event.fprintf (Message.leak b.size b.file b.line)) ++ tail) =
      (l.isEmpty && noOutputWhileLocked true tail) := by
  cases l with
  | nil => simp
  | cons b l => simp [noOutputWhileLocked]

/-- C10 as stated fails. On a list with the one record `(4096, 40, "leak_test.c", 42)`,
`detect_memory_leaks("leak_test.c")` takes the mutex, writes the leak line, gives
the mutex back and writes the summary: the leak line is output made while the
mutex is held. -/
theorem detect_memory_leaks_prints_while_locked :
    (detect_memory_leaks "leak_test.c" [⟨4096, 40, "leak_test.c", 42⟩]).trace =
      [Event.lock, Event.fprintf (Message.leak 40 "leak_test.c" 42), Event.unlock,
       Event.fprintf (Message.total 1 "leak_test.c")] ∧
    ¬ (lockPaired false
          (detect_memory_leaks "leak_test.c" [⟨4096, 40, "leak_test.c", 42⟩]).trace = true ∧
       noOutputWhileLocked false
          (detect_memory_leaks "leak_test.c" [⟨4096, 40, "leak_test.c", 42⟩]).trace = true) := by
  decide

/-- C10, amended. In the trace of every execution of `tracked_malloc`,
`tracked_free` and `detect_memory_leaks` the mutex is taken and given back in
turn and is free at the end. `tracked_malloc` and `tracked_free` write nothing
at all, so nothing while the mutex is held. `detect_memory_leaks` writes its
summary line after giving the mutex back, and one leak line for each record
whose file equals the name while it holds the mutex: its trace has no output
under the mutex exactly when no record has that file. -/
theorem lock_discipline (ptr block : Addr) (size : Nat) (file : String) (line : Int)
    (F : String) (head : Registry) :
    lockPaired false (tracked_malloc ptr block size file line head).trace = true ∧
    lockPaired false (tracked_free ptr head).trace = true ∧
    lockPaired false (detect_memory_leaks F head).trace = true ∧
    (∀ msg, Event.fprintf msg ∉ (tracked_malloc ptr block size file line head).trace) ∧
    (∀ msg, Event.fprintf msg ∉ (tracked_free ptr head).trace) ∧
    noOutputWhileLocked false (tracked_malloc ptr block size file line head).trace = true ∧
    noOutputWhileLocked false (tracked_free ptr head).trace = true ∧
    (noOutputWhileLocked false (detect_memory_leaks F head).trace = true ↔
      ∀ b ∈ head, b.file ≠ F) ∧
    (∃ summary,
      (detect_memory_leaks F head).trace =
        (Event.lock ::
          ((head.filter fun b => b.file = F).map
            fun b => Event.fprintf (Message.leak b.size b.file b.line)) ++
          [Event.unlock]) ++ [Event.fprintf summary]) := by
  have hm : ∀ t, t = (tracked_malloc ptr block size file line head).trace →
      lockPaired false t = true ∧ (∀ msg, Event.fprintf msg ∉ t) ∧
        noOutputWhileLocked false t = true := by
    intro t ht
    subst ht
    unfold tracked_malloc
    split
    · split <;> simp [lockPaired, noOutputWhileLocked]
    · simp [lockPaired, noOutputWhileLocked]
  have hf : ∀ t, t = (tracked_free ptr head).trace →
      lockPaired false t = true ∧ (∀ msg, Event.fprintf msg ∉ t) ∧
        noOutputWhileLocked false t = true := by
    intro t ht
    subst ht
    rw [tracked_free_trace]
    split
    · simp [lockPaired, noOutputWhileLocked]
    · split <;> simp [lockPaired, noOutputWhileLocked]
  obtain ⟨hm1, hm2, hm3⟩ := hm _ rfl
  obtain ⟨hf1, hf2, hf3⟩ := hf _ rfl
  refine ⟨hm1, hf1, ?_, hm2, hf2, hm3, hf3, ?_, ?_⟩
  · rw [detect_memory_leaks_trace, List.cons_append]
    simp only [lockPaired, Bool.not_false, Bool.true_and]
    rw [lockPaired_leak_lines]
    split <;> simp [lockPaired]
  · rw [detect_memory_leaks_trace, List.cons_append]
    simp only [noOutputWhileLocked]
    rw [noOutputWhileLocked_leak_lines]
    have hsum : noOutputWhileLocked true
        [Event.unlock,
          if (head.filter fun b => b.file = F) = [] then Event.fprintf (Message.no_leaks F)
          else Event.fprintf (Message.total (head.filter fun b => b.file = F).length F)] =
        true := by
      split <;> simp [noOutputWhileLocked]
    rw [hsum]
    simp [List.filter_eq_nil_iff]
  · rw [detect_memory_leaks_trace]
    split
    · exact ⟨Message.no_leaks F, by simp⟩
    · exact ⟨Message.total (head.filter fun b => b.file = F).length F, by simp⟩

end MemoryAnalyzer
